import Mathlib

/-!
Shallow embedding of the deterministic lexical RAG pipeline in
`02-workflow-orchestration/dagster_project/dags/dag_06_chat_pipeline.py`.

Modelling conventions:
* Python `str` is Lean `String`; `str.lower()` is modelled per character by
  `Char.toLower` (ASCII case mapping, matching the ASCII regex character class
  used by the tokenizer).
* Python `float` arithmetic on scores is modelled by exact rationals `ℚ`;
  `round(x, d)` is modelled by rounding `x * 10^d` to the nearest integer.
* Python `set` is modelled by `Finset String`; `sorted(set(...))` by
  `mergeSort` over the deduplicated list.
* `list.sort(key=..., reverse=True)` (a stable sort) is modelled by tagging
  each element with its original position and merge-sorting by the total order
  "score descending, original position ascending", which is the standard
  characterisation of a stable descending sort.
* `datetime.utcnow().isoformat()` is modelled by an explicit `now : String`
  argument threaded into every operation that records a timestamp.
-/

/-- Character class of the tokenizer regex `[a-zA-Z0-9_]`. -/
def isWordChar (c : Char) : Bool :=
  ('a' ≤ c && c ≤ 'z') || ('A' ≤ c && c ≤ 'Z') || ('0' ≤ c && c ≤ '9') || c = '_'

/-- Lowercase word characters `[a-z0-9_]`. -/
def isLowerWordChar (c : Char) : Bool :=
  ('a' ≤ c && c ≤ 'z') || ('0' ≤ c && c ≤ '9') || c = '_'

/-- Maximal runs of word characters, in left-to-right order: the semantics of
`re.findall(r"[a-zA-Z0-9_]+", ·)` on a character list. -/
def tokenRuns : List Char → List (List Char)
  | [] => []
  | c :: cs =>
    if isWordChar c then
      (c :: cs.takeWhile isWordChar) :: tokenRuns (cs.dropWhile isWordChar)
    else
      tokenRuns cs
termination_by l => l.length
decreasing_by
  · exact Nat.lt_succ_of_le (cs.dropWhile_sublist isWordChar).length_le
  · exact Nat.lt_succ_self _

/-- `_tokenize(text)`: `re.findall(r"[a-zA-Z0-9_]+", text.lower())`. -/
def _tokenize (text : String) : List String :=
  (tokenRuns (text.data.map Char.toLower)).map (fun run => String.mk run)

/-- Character-level `" ".join`: the runs separated by single spaces. -/
def sepChars : List (List Char) → List Char
  | [] => []
  | [t] => t
  | t :: ts => t ++ ' ' :: sepChars ts

/-- `" ".join(tokens)`. -/
def joinSpace (ts : List String) : String :=
  String.mk (sepChars (ts.map String.data))

/-- The `for start in range(0, len(tokens), step)` loop of `_chunk_text`,
including the `if not chunk: continue` skip and the
`if start + chunk_size >= len(tokens): break` early exit. -/
def chunkLoop (tokens : List String) (chunk_size step : Nat) (hstep : 0 < step)
    (start : Nat) : List String :=
  if _h : start < tokens.length then
    let chunk := (tokens.drop start).take chunk_size
    if chunk.isEmpty then
      chunkLoop tokens chunk_size step hstep (start + step)
    else
      joinSpace chunk ::
        (if tokens.length ≤ start + chunk_size then []
         else chunkLoop tokens chunk_size step hstep (start + step))
  else []
termination_by tokens.length - start
decreasing_by all_goals omega

/-- `_chunk_text(text, chunk_size, overlap)`. -/
def _chunk_text (text : String) (chunk_size : Nat := 50) (overlap : Nat := 10) :
    List String :=
  let tokens := _tokenize text
  if tokens.isEmpty then []
  else
    chunkLoop tokens chunk_size (max 1 (chunk_size - overlap)) (by omega) 0

/-- Number of further loop steps performed from `start` before the stop
condition `start + chunk_size ≥ len(tokens)` holds. -/
def numSteps (n chunk_size step : Nat) (hstep : 0 < step) (start : Nat) : Nat :=
  if n ≤ start + chunk_size then 0
  else numSteps n chunk_size step hstep (start + step) + 1
termination_by n - start
decreasing_by omega

/-- The variant of the chunking loop without the (unreachable for
`chunk_size ≥ 1`) empty-window skip branch. -/
def chunkLoopNoSkip (tokens : List String) (chunk_size step : Nat)
    (hstep : 0 < step) (start : Nat) : List String :=
  if _h : start < tokens.length then
    joinSpace ((tokens.drop start).take chunk_size) ::
      (if tokens.length ≤ start + chunk_size then []
       else chunkLoopNoSkip tokens chunk_size step hstep (start + step))
  else []
termination_by tokens.length - start
decreasing_by omega

/-- `_chunk_text` with the skip branch removed. -/
def chunkTextNoSkip (text : String) (chunk_size : Nat := 50)
    (overlap : Nat := 10) : List String :=
  let tokens := _tokenize text
  if tokens.isEmpty then []
  else
    chunkLoopNoSkip tokens chunk_size (max 1 (chunk_size - overlap)) (by omega) 0

/-- Python `round(q, d)` on our rational model of floats: round to the nearest
multiple of `10^(-d)`. -/
def roundTo (q : ℚ) (d : Nat) : ℚ :=
  (round (q * (10 : ℚ) ^ d) : ℚ) / (10 : ℚ) ^ d

/-- Python `f"{n:03d}"` for a non-negative `n`: decimal digits zero-padded on
the left to width at least 3. -/
def format03 (n : Nat) : String :=
  let s := toString n
  String.mk (List.replicate (3 - s.data.length) '0' ++ s.data)

/-- An input document (`DEFAULT_DOCS` entries / ingested records). -/
structure Document where
  id : String
  title : String
  source : String
  content : String

/-- A chunk record produced by `chunk_documents`. -/
structure Chunk where
  chunk_id : String
  doc_id : String
  title : String
  text : String
  token_count : Nat
deriving DecidableEq

/-- Metrics recorded by `chunk_documents`. -/
structure ChunkMetrics where
  document_count : Nat
  chunk_count : Nat
  avg_chunk_tokens : ℚ
  timestamp : String

/-- Output of the `chunk_documents` op. -/
structure ChunkPayload where
  chunks : List Chunk
  metrics : ChunkMetrics

/-- `chunk_documents(context, documents)`; `now` models
`datetime.utcnow().isoformat()`. -/
def chunk_documents (documents : List Document) (now : String) : ChunkPayload :=
  let chunks : List Chunk :=
    documents.flatMap (fun document =>
      ((_chunk_text document.content 50 10).enum).map (fun p =>
        { chunk_id := document.id ++ "_chunk_" ++ format03 p.1
          doc_id := document.id
          title := document.title
          text := p.2
          token_count := (_tokenize p.2).length }))
  let average_tokens : ℚ :=
    ((chunks.map (fun c => (c.token_count : ℚ))).sum) / (max 1 chunks.length : Nat)
  { chunks := chunks
    metrics :=
      { document_count := documents.length
        chunk_count := chunks.length
        avg_chunk_tokens := roundTo average_tokens 2
        timestamp := now } }

/-- An entry of the lexical mock index. -/
structure IndexEntry where
  chunk_id : String
  doc_id : String
  title : String
  text : String
  tokens : List String
deriving DecidableEq

/-- Metrics recorded by `build_mock_index`. -/
structure IndexMetrics where
  indexed_chunks : Nat
  vocabulary_size : Nat
  index_type : String
  timestamp : String

/-- Output of the `build_mock_index` op. -/
structure IndexPayload where
  entries : List IndexEntry
  metrics : IndexMetrics

/-- `build_mock_index(context, chunk_payload)`.  `sorted(set(token_list))` is
the deduplicated token list sorted lexicographically; the vocabulary is the set
of all tokens across chunks, whose cardinality is the length of the
deduplicated concatenation. -/
def build_mock_index (chunk_payload : ChunkPayload) (now : String) :
    IndexPayload :=
  let entries : List IndexEntry :=
    chunk_payload.chunks.map (fun chunk =>
      { chunk_id := chunk.chunk_id
        doc_id := chunk.doc_id
        title := chunk.title
        text := chunk.text
        tokens := ((_tokenize chunk.text).dedup).mergeSort
          (fun a b => decide (a ≤ b)) })
  let vocabulary_size :=
    ((chunk_payload.chunks.flatMap (fun chunk => _tokenize chunk.text)).dedup).length
  { entries := entries
    metrics :=
      { indexed_chunks := entries.length
        vocabulary_size := vocabulary_size
        index_type := "lexical_mock_index"
        timestamp := now } }

/-- A retrieved chunk together with its score. -/
structure ScoredChunk where
  chunk_id : String
  doc_id : String
  title : String
  text : String
  score : ℚ
deriving DecidableEq

/-- Scoring of one index entry against the query token set:
`overlap / (union or 1)`, rounded to 4 decimal places. -/
def scoreEntry (query_tokens : Finset String) (entry : IndexEntry) :
    ScoredChunk :=
  let entry_tokens := entry.tokens.toFinset
  let overlap := (query_tokens ∩ entry_tokens).card
  let union0 := (query_tokens ∪ entry_tokens).card
  let union := if union0 = 0 then 1 else union0
  { chunk_id := entry.chunk_id
    doc_id := entry.doc_id
    title := entry.title
    text := entry.text
    score := roundTo ((overlap : ℚ) / (union : ℚ)) 4 }

/-- Comparison used to model the stable `scored.sort(key=score, reverse=True)`:
score descending, breaking ties by the original position tag. -/
def scoredLE (p q : Nat × ScoredChunk) : Bool :=
  if p.2.score = q.2.score then decide (p.1 ≤ q.1)
  else decide (q.2.score ≤ p.2.score)

/-- The sorted scored list with original-position tags. -/
def stableSortDescTagged (scored : List ScoredChunk) :
    List (Nat × ScoredChunk) :=
  scored.enum.mergeSort scoredLE

/-- The stable descending sort of the scored list. -/
def stableSortDesc (scored : List ScoredChunk) : List ScoredChunk :=
  (stableSortDescTagged scored).map (fun p => p.2)

/-- Metrics recorded by `retrieve_relevant_chunks`. -/
structure RetrievalMetrics where
  top_k : Nat
  retrieved_count : Nat
  best_score : ℚ
  timestamp : String

/-- Output of the `retrieve_relevant_chunks` op. -/
structure RetrievalPayload where
  query : String
  retrieved : List ScoredChunk
  metrics : RetrievalMetrics

/-- `retrieve_relevant_chunks(context, index_payload, query, top_k)`. -/
def retrieve_relevant_chunks (index_payload : IndexPayload) (query : String)
    (top_k : Nat := 3) (now : String := "") : RetrievalPayload :=
  let query_tokens := (_tokenize query).toFinset
  let scored := index_payload.entries.map (scoreEntry query_tokens)
  let ranked := stableSortDesc scored
  let retrieved := ranked.take top_k
  { query := query
    retrieved := retrieved
    metrics :=
      { top_k := top_k
        retrieved_count := retrieved.length
        best_score := match retrieved with
          | [] => 0
          | s :: _ => s.score
        timestamp := now } }

/-- An answer record. -/
structure Answer where
  query : String
  answer : String
  citations : List String
  mode : String
  timestamp : String

/-- `generate_baseline_answer(context, query)`. -/
def generate_baseline_answer (query : String) (now : String) : Answer :=
  { query := query
    answer :=
      "Without retrieval context, this answer is generic: Kestra 1.1 likely included improvements in UI, scheduling, plugins, reliability, and documentation."
    citations := []
    mode := "without_rag"
    timestamp := now }

/-- `generate_grounded_answer(context, retrieval_payload)`. -/
def generate_grounded_answer (retrieval_payload : RetrievalPayload)
    (now : String) : Answer :=
  let query := retrieval_payload.query
  let retrieved := retrieval_payload.retrieved
  let bullet_points := retrieved.map (fun item =>
    "- [" ++ item.chunk_id ++ "] " ++ (item.text.take 140) ++ "...")
  let answer :=
    "Using retrieved context for query: " ++ query ++ "\n"
      ++ String.intercalate "\n" bullet_points
      ++ "\n\nThis response is grounded in retrieved chunks from the indexed corpus."
  { query := query
    answer := answer
    citations := retrieved.map (fun item => item.chunk_id)
    mode := "with_rag"
    timestamp := now }

/-- Metrics record produced by `evaluate_baseline_answer`. -/
structure BaselineEvalMetrics where
  mode : String
  answer_token_count : Nat
  citation_count : Nat
  grounding_score : ℚ
  timestamp : String

/-- `evaluate_baseline_answer(context, baseline_answer)`. -/
def evaluate_baseline_answer (baseline_answer : Answer) (now : String) :
    BaselineEvalMetrics :=
  { mode := "without_rag"
    answer_token_count := (_tokenize baseline_answer.answer).length
    citation_count := baseline_answer.citations.length
    grounding_score := 0
    timestamp := now }

/-- Metrics record produced by `evaluate_grounded_answer`. -/
structure GroundedEvalMetrics where
  mode : String
  answer_token_count : Nat
  retrieved_count : Nat
  citation_count : Nat
  grounding_score : ℚ
  timestamp : String

/-- `evaluate_grounded_answer(context, grounded_answer, retrieval_payload)`. -/
def evaluate_grounded_answer (grounded_answer : Answer)
    (retrieval_payload : RetrievalPayload) (now : String) :
    GroundedEvalMetrics :=
  let retrieved_count := retrieval_payload.retrieved.length
  let citations := grounded_answer.citations
  let grounding_score : ℚ :=
    (citations.length : ℚ) / (max 1 retrieved_count : Nat)
  { mode := "with_rag"
    answer_token_count := (_tokenize grounded_answer.answer).length
    retrieved_count := retrieved_count
    citation_count := citations.length
    grounding_score := roundTo grounding_score 2
    timestamp := now }

/-- Scenario fixture: an index entry with token set `{alpha, beta}`. -/
def entryAlphaBeta : IndexEntry := ⟨"c1", "d1", "t1", "alpha beta", ["alpha", "beta"]⟩

/-- Scenario fixture: an index entry with token set `{gamma}`. -/
def entryGamma : IndexEntry := ⟨"c2", "d2", "t2", "gamma", ["gamma"]⟩

/-- Scenario fixture: an index holding the two entries above. -/
def scenarioIndex : IndexPayload :=
  ⟨[entryAlphaBeta, entryGamma], ⟨2, 3, "lexical_mock_index", "ts"⟩⟩

/-- Fixture: a retrieval result with three retrieved chunks. -/
def retrievalWithThree : RetrievalPayload :=
  ⟨"q", [⟨"c1", "d1", "t1", "alpha", 1/2⟩, ⟨"c2", "d2", "t2", "beta", 1/4⟩,
    ⟨"c3", "d3", "t3", "gamma", 0⟩], ⟨3, 3, 1/2, "ts"⟩⟩

/-! ### Tokenizer lemmas -/

lemma isLowerWordChar_isWordChar {c : Char} (h : isLowerWordChar c = true) :
    isWordChar c = true := by
  simp only [isLowerWordChar, isWordChar, Bool.or_eq_true, Bool.and_eq_true,
    decide_eq_true_eq] at h ⊢
  rcases h with (h | h) | h
  · exact Or.inl (Or.inl (Or.inl h))
  · exact Or.inl (Or.inr h)
  · exact Or.inr h

lemma toLower_of_not_upper {c : Char} (h : ¬(c.toNat ≥ 65 ∧ c.toNat ≤ 90)) :
    Char.toLower c = c := by
  unfold Char.toLower
  simp only [if_neg h]

lemma ofNat_add32_lower : ∀ m : Nat, 65 ≤ m → m ≤ 90 →
    isLowerWordChar (Char.ofNat (m + 32)) = true := by
  intro m h1 h2
  interval_cases m <;> decide

/-- After `str.lower()`, any character matching the tokenizer class
`[a-zA-Z0-9_]` in fact matches `[a-z0-9_]`. -/
lemma isWordChar_toLower (c : Char) (h : isWordChar (Char.toLower c) = true) :
    isLowerWordChar (Char.toLower c) = true := by
  by_cases hc : c.toNat ≥ 65 ∧ c.toNat ≤ 90
  · have heq : Char.toLower c = Char.ofNat (c.toNat + 32) := by
      unfold Char.toLower; simp only [if_pos hc]
    rw [heq]
    exact ofNat_add32_lower c.toNat hc.1 hc.2
  · rw [toLower_of_not_upper hc] at h ⊢
    simp only [isWordChar, isLowerWordChar, Bool.or_eq_true, Bool.and_eq_true,
      decide_eq_true_eq] at h ⊢
    rcases h with ((h | h) | h) | h
    · exact Or.inl (Or.inl h)
    · exfalso
      apply hc
      obtain ⟨h1, h2⟩ := h
      simp only [Char.le_def, UInt32.le_def, BitVec.le_def] at h1 h2
      exact ⟨h1, h2⟩
    · exact Or.inl (Or.inr h)
    · exact Or.inr h

lemma toLower_of_isLowerWordChar {c : Char} (h : isLowerWordChar c = true) :
    Char.toLower c = c := by
  apply toLower_of_not_upper
  simp only [isLowerWordChar, Bool.or_eq_true, Bool.and_eq_true,
    decide_eq_true_eq] at h
  rcases h with (h | h) | h
  · obtain ⟨h1, h2⟩ := h
    simp only [Char.le_def, UInt32.le_def, BitVec.le_def] at h1 h2
    change (97 : Nat) ≤ c.toNat at h1
    omega
  · obtain ⟨h1, h2⟩ := h
    simp only [Char.le_def, UInt32.le_def, BitVec.le_def] at h1 h2
    change c.toNat ≤ 57 at h2
    omega
  · subst h; decide

/-- Every run found by `tokenRuns` is non-empty, consists of word characters,
and draws its characters from the input. -/
lemma tokenRuns_sound :
    ∀ l r, r ∈ tokenRuns l →
      r ≠ [] ∧ ∀ c ∈ r, isWordChar c = true ∧ c ∈ l := by
  intro l
  induction l using tokenRuns.induct with
  | case1 => intro r hr; simp [tokenRuns] at hr
  | case2 c cs hw ih =>
    intro r hr
    rw [tokenRuns, if_pos hw] at hr
    rcases List.mem_cons.mp hr with h | h
    · subst h
      refine ⟨by simp, ?_⟩
      intro x hx
      rcases List.mem_cons.mp hx with h | h
      · subst h; exact ⟨hw, List.mem_cons_self _ _⟩
      · exact ⟨List.mem_takeWhile_imp h,
          List.mem_cons_of_mem _ ((cs.takeWhile_sublist _).subset h)⟩
    · obtain ⟨hne, hall⟩ := ih r h
      refine ⟨hne, fun x hx => ?_⟩
      obtain ⟨hword, hmem⟩ := hall x hx
      exact ⟨hword, List.mem_cons_of_mem _ ((cs.dropWhile_sublist _).subset hmem)⟩
  | case3 c cs hw ih =>
    intro r hr
    rw [tokenRuns, if_neg hw] at hr
    obtain ⟨hne, hall⟩ := ih r hr
    exact ⟨hne, fun x hx => ⟨(hall x hx).1, List.mem_cons_of_mem _ (hall x hx).2⟩⟩

/-- Every token produced by `_tokenize` is non-empty and made of lowercase
word characters `[a-z0-9_]`. -/
lemma tokenize_mem_spec {s : String} {t : String} (h : t ∈ _tokenize s) :
    t.data ≠ [] ∧ ∀ ch ∈ t.data, isLowerWordChar ch = true := by
  simp only [_tokenize, List.mem_map] at h
  obtain ⟨r, hr, hmk⟩ := h
  obtain ⟨hne, hall⟩ := tokenRuns_sound _ r hr
  subst hmk
  refine ⟨hne, fun ch hch => ?_⟩
  obtain ⟨hword, hmem⟩ := hall ch hch
  obtain ⟨c, _, hc⟩ := List.mem_map.mp hmem
  subst hc
  exact isWordChar_toLower c hword

/-! ### Round trip: tokenizing a space-joined token list -/

lemma isWordChar_space : isWordChar ' ' = false := by decide

lemma takeWhile_word_append (r rest : List Char)
    (h : ∀ c ∈ r, isWordChar c = true) :
    (r ++ ' ' :: rest).takeWhile isWordChar = r := by
  induction r with
  | nil => simp [List.takeWhile, isWordChar_space]
  | cons c cs ih =>
    simp only [List.cons_append, List.takeWhile]
    rw [h c (List.mem_cons_self _ _)]
    simp only [List.cons.injEq, true_and]
    exact ih (fun x hx => h x (List.mem_cons_of_mem _ hx))

lemma dropWhile_word_append (r rest : List Char)
    (h : ∀ c ∈ r, isWordChar c = true) :
    (r ++ ' ' :: rest).dropWhile isWordChar = ' ' :: rest := by
  induction r with
  | nil => simp [List.dropWhile, isWordChar_space]
  | cons c cs ih =>
    simp only [List.cons_append, List.dropWhile]
    rw [h c (List.mem_cons_self _ _)]
    exact ih (fun x hx => h x (List.mem_cons_of_mem _ hx))

lemma tokenRuns_word_append (r rest : List Char) (hne : r ≠ [])
    (h : ∀ c ∈ r, isWordChar c = true) :
    tokenRuns (r ++ ' ' :: rest) = r :: tokenRuns rest := by
  obtain ⟨c, cs, rfl⟩ := List.exists_cons_of_ne_nil hne
  rw [List.cons_append, tokenRuns, if_pos (h c (List.mem_cons_self _ _))]
  have hcs : ∀ x ∈ cs, isWordChar x = true :=
    fun x hx => h x (List.mem_cons_of_mem _ hx)
  rw [takeWhile_word_append cs rest hcs, dropWhile_word_append cs rest hcs,
    tokenRuns, if_neg (by simp [isWordChar_space])]

lemma tokenRuns_word_all (r : List Char) (hne : r ≠ [])
    (h : ∀ c ∈ r, isWordChar c = true) :
    tokenRuns r = [r] := by
  obtain ⟨c, cs, rfl⟩ := List.exists_cons_of_ne_nil hne
  rw [tokenRuns, if_pos (h c (List.mem_cons_self _ _))]
  have hcs : ∀ x ∈ cs, isWordChar x = true :=
    fun x hx => h x (List.mem_cons_of_mem _ hx)
  rw [List.takeWhile_eq_self_iff.mpr hcs, List.dropWhile_eq_nil_iff.mpr
    (fun x hx => by simp [hcs x hx]), tokenRuns]

lemma tokenRuns_sepChars :
    ∀ rs : List (List Char),
      (∀ r ∈ rs, r ≠ [] ∧ ∀ c ∈ r, isWordChar c = true) →
      tokenRuns (sepChars rs) = rs := by
  intro rs
  induction rs with
  | nil => intro _; show tokenRuns [] = []; rw [tokenRuns]
  | cons r rs ih =>
    intro h
    obtain ⟨hne, hword⟩ := h r (List.mem_cons_self _ _)
    cases rs with
    | nil => exact tokenRuns_word_all r hne hword
    | cons r' rs' =>
      show tokenRuns (r ++ ' ' :: sepChars (r' :: rs')) = _
      rw [tokenRuns_word_append r _ hne hword,
        ih (fun x hx => h x (List.mem_cons_of_mem _ hx))]

lemma mem_sepChars :
    ∀ (rs : List (List Char)) (c : Char), c ∈ sepChars rs →
      c = ' ' ∨ ∃ r ∈ rs, c ∈ r := by
  intro rs
  induction rs with
  | nil => intro c hc; simp [sepChars] at hc
  | cons r rs ih =>
    intro c hc
    cases rs with
    | nil => exact Or.inr ⟨r, List.mem_cons_self _ _, hc⟩
    | cons r' rs' =>
      rcases List.mem_append.mp hc with h | h
      · exact Or.inr ⟨r, List.mem_cons_self _ _, h⟩
      · rcases List.mem_cons.mp h with h | h
        · exact Or.inl h
        · rcases ih c h with h' | ⟨r'', hr'', hc''⟩
          · exact Or.inl h'
          · exact Or.inr ⟨r'', List.mem_cons_of_mem _ hr'', hc''⟩

/-- Tokenizing the space-join of non-empty lowercase word tokens gives back
exactly those tokens. -/
lemma tokenize_joinSpace (ts : List String)
    (h : ∀ t ∈ ts, t.data ≠ [] ∧ ∀ ch ∈ t.data, isLowerWordChar ch = true) :
    _tokenize (joinSpace ts) = ts := by
  have hfix : (sepChars (ts.map String.data)).map Char.toLower
      = sepChars (ts.map String.data) := by
    have : ∀ c ∈ sepChars (ts.map String.data), Char.toLower c = c := by
      intro c hc
      rcases mem_sepChars _ c hc with rfl | ⟨r, hr, hcr⟩
      · decide
      · obtain ⟨t, ht, rfl⟩ := List.mem_map.mp hr
        exact toLower_of_isLowerWordChar ((h t ht).2 c hcr)
    calc (sepChars (ts.map String.data)).map Char.toLower
        = (sepChars (ts.map String.data)).map id := List.map_congr_left this
      _ = _ := List.map_id _
  show (tokenRuns ((sepChars (ts.map String.data)).map Char.toLower)).map
      (fun run => String.mk run) = ts
  rw [hfix, tokenRuns_sepChars (ts.map String.data) (by
    intro r hr
    obtain ⟨t, ht, rfl⟩ := List.mem_map.mp hr
    exact ⟨(h t ht).1, fun c hc =>
      isLowerWordChar_isWordChar ((h t ht).2 c hc)⟩)]
  rw [List.map_map]
  calc ts.map (fun t => String.mk t.data) = ts.map id :=
        List.map_congr_left (fun t _ => rfl)
    _ = ts := List.map_id ts

/-! ### Chunking loop lemmas -/

lemma window_ne_nil {tokens : List String} {chunk_size start : Nat}
    (hc : 0 < chunk_size) (h : start < tokens.length) :
    (tokens.drop start).take chunk_size ≠ [] := by
  apply List.ne_nil_of_length_pos
  simp only [List.length_take, List.length_drop]
  omega

/-- With a positive window size, the `if not chunk: continue` branch is never
taken: the loop equals its skip-free variant. -/
lemma chunkLoop_eq_noSkip (tokens : List String) (chunk_size step : Nat)
    (hstep : 0 < step) (hc : 0 < chunk_size) (start : Nat) :
    chunkLoop tokens chunk_size step hstep start
      = chunkLoopNoSkip tokens chunk_size step hstep start := by
  rw [chunkLoop, chunkLoopNoSkip]
  by_cases h : start < tokens.length
  · simp only [dif_pos h]
    rw [if_neg (by simp [List.isEmpty_iff, window_ne_nil hc h])]
    by_cases h2 : tokens.length ≤ start + chunk_size
    · rw [if_pos h2, if_pos h2]
    · rw [if_neg h2, if_neg h2,
        chunkLoop_eq_noSkip tokens chunk_size step hstep hc (start + step)]
  · simp only [dif_neg h]
termination_by tokens.length - start
decreasing_by omega

/-- `numSteps` counts to the first window whose end index reaches or exceeds
the token count. -/
lemma numSteps_spec (n chunk_size step : Nat) (hstep : 0 < step) (start : Nat) :
    (∀ i < numSteps n chunk_size step hstep start,
        start + i * step + chunk_size < n) ∧
      n ≤ start + (numSteps n chunk_size step hstep start) * step
        + chunk_size := by
  by_cases h : n ≤ start + chunk_size
  · rw [numSteps, if_pos h]
    exact ⟨fun i hi => absurd hi (by omega), by simpa using h⟩
  · rw [numSteps, if_neg h]
    obtain ⟨ih1, ih2⟩ := numSteps_spec n chunk_size step hstep (start + step)
    refine ⟨fun i hi => ?_, ?_⟩
    · cases i with
      | zero => simpa using (by omega : start + chunk_size < n)
      | succ j =>
        have := ih1 j (by omega)
        rw [Nat.succ_mul]
        omega
    · rw [Nat.succ_mul]
      omega
termination_by n - start
decreasing_by omega

/-- Closed form of the chunk loop: the joined windows at starts
`start, start+step, …`, stopping at the first window reaching the end. -/
lemma chunkLoop_windows (tokens : List String) (chunk_size step : Nat)
    (hstep : 0 < step) (hc : 0 < chunk_size) (hsc : step ≤ chunk_size)
    (start : Nat) (h : start < tokens.length) :
    chunkLoop tokens chunk_size step hstep start
      = (List.range (numSteps tokens.length chunk_size step hstep start + 1)).map
          (fun i => joinSpace ((tokens.drop (start + i * step)).take chunk_size)) := by
  rw [chunkLoop]
  simp only [dif_pos h]
  rw [if_neg (by simp [List.isEmpty_iff, window_ne_nil hc h])]
  by_cases h2 : tokens.length ≤ start + chunk_size
  · rw [if_pos h2, numSteps, if_pos h2]
    simp [List.range_succ]
  · rw [if_neg h2, numSteps, if_neg h2,
      chunkLoop_windows tokens chunk_size step hstep hc hsc (start + step)
        (by omega)]
    conv_rhs => rw [List.range_succ_eq_map]
    rw [List.map_cons, List.map_map]
    congr 1
    · simp
    · apply List.map_congr_left
      intro i _
      simp only [Function.comp_apply]
      congr 3
      rw [Nat.succ_mul]
      omega
termination_by tokens.length - start
decreasing_by omega

/-! ### Stable descending sort lemmas -/

lemma scoredLE_trans : ∀ a b c : Nat × ScoredChunk,
    scoredLE a b = true → scoredLE b c = true → scoredLE a c = true := by
  intro a b c hab hbc
  by_cases h1 : a.2.score = b.2.score
  · by_cases h2 : b.2.score = c.2.score
    · rw [scoredLE, if_pos h1] at hab
      rw [scoredLE, if_pos h2] at hbc
      rw [scoredLE, if_pos (h1.trans h2)]
      simp only [decide_eq_true_eq] at *
      omega
    · rw [scoredLE, if_neg h2] at hbc
      rw [scoredLE, if_neg (h1 ▸ h2)]
      rw [h1]
      exact hbc
  · by_cases h2 : b.2.score = c.2.score
    · rw [scoredLE, if_neg h1] at hab
      rw [scoredLE, if_neg (fun h => h1 (h.trans h2.symm))]
      rw [← h2]
      exact hab
    · rw [scoredLE, if_neg h1] at hab
      rw [scoredLE, if_neg h2] at hbc
      simp only [decide_eq_true_eq] at hab hbc
      by_cases hac : a.2.score = c.2.score
      · exact absurd (le_antisymm (hac ▸ hab) hbc) h2
      · rw [scoredLE, if_neg hac]
        simp only [decide_eq_true_eq]
        exact le_trans hbc hab

lemma scoredLE_total : ∀ a b : Nat × ScoredChunk,
    (scoredLE a b || scoredLE b a) = true := by
  intro a b
  by_cases h : a.2.score = b.2.score
  · rw [scoredLE, if_pos h, scoredLE, if_pos h.symm]
    simp only [Bool.or_eq_true, decide_eq_true_eq]
    omega
  · rw [scoredLE, if_neg h, scoredLE, if_neg (Ne.symm h)]
    simp only [Bool.or_eq_true, decide_eq_true_eq]
    exact le_total _ _

lemma stableSortDescTagged_perm (scored : List ScoredChunk) :
    (stableSortDescTagged scored).Perm scored.enum :=
  List.mergeSort_perm _ _

/-- The tagged sort is ordered by "score strictly descending, or equal scores
with original positions strictly ascending". -/
lemma stableSortDescTagged_pairwise (scored : List ScoredChunk) :
    List.Pairwise
      (fun a b : Nat × ScoredChunk =>
        b.2.score < a.2.score ∨ (a.2.score = b.2.score ∧ a.1 < b.1))
      (stableSortDescTagged scored) := by
  have hs := List.sorted_mergeSort scoredLE_trans scoredLE_total scored.enum
  have hnd : (stableSortDescTagged scored).Pairwise
      (fun a b => a.1 ≠ b.1) := by
    apply List.pairwise_map.mp
    have hperm : (stableSortDescTagged scored).map Prod.fst
        |>.Perm (scored.enum.map Prod.fst) :=
      (stableSortDescTagged_perm scored).map _
    apply hperm.symm.nodup
    rw [List.enum_map_fst]
    exact List.nodup_range _
  refine (hs.and hnd).imp ?_
  rintro a b ⟨hle, hne⟩
  rw [scoredLE] at hle
  by_cases h : a.2.score = b.2.score
  · rw [if_pos h] at hle
    simp only [decide_eq_true_eq] at hle
    exact Or.inr ⟨h, by omega⟩
  · rw [if_neg h] at hle
    simp only [decide_eq_true_eq] at hle
    exact Or.inl (lt_of_le_of_ne hle (fun hh => h hh.symm))

lemma stableSortDesc_pairwise (scored : List ScoredChunk) :
    List.Pairwise (fun a b : ScoredChunk => b.score ≤ a.score)
      (stableSortDesc scored) := by
  apply List.pairwise_map.mpr
  refine (stableSortDescTagged_pairwise scored).imp ?_
  rintro a b (h | ⟨h, _⟩)
  · exact le_of_lt h
  · exact le_of_eq h.symm

lemma stableSortDesc_perm (scored : List ScoredChunk) :
    (stableSortDesc scored).Perm scored := by
  have := (stableSortDescTagged_perm scored).map (Prod.snd)
  rwa [List.enum_map_snd] at this

lemma mem_enum_getElem {α : Type} {l : List α} {p : Nat × α}
    (h : p ∈ l.enum) : ∃ hlt : p.1 < l.length, l[p.1] = p.2 := by
  obtain ⟨p1, p2⟩ := p
  obtain ⟨_, h2, h3⟩ := List.mem_enumFrom h
  simp only [Nat.zero_add] at h2
  exact ⟨h2, by simp [h3]⟩

/-- Each tagged element of the sort is the element of the scored list at its
tag position. -/
lemma stableSortDescTagged_getElem (scored : List ScoredChunk)
    {p : Nat × ScoredChunk} (h : p ∈ stableSortDescTagged scored) :
    ∃ hlt : p.1 < scored.length, scored[p.1] = p.2 :=
  mem_enum_getElem ((stableSortDescTagged_perm scored).mem_iff.mp h)

/-! ### Concrete evaluation helpers -/

lemma tok_alpha : _tokenize "alpha" = ["alpha"] := by
  rw [show ("alpha" : String) = joinSpace ["alpha"] from rfl]
  exact tokenize_joinSpace _ (by decide)

lemma tok_ab : _tokenize "alpha beta" = ["alpha", "beta"] := by
  rw [show ("alpha beta" : String) = joinSpace ["alpha", "beta"] from rfl]
  exact tokenize_joinSpace _ (by decide)

lemma tok_abga :
    _tokenize "alpha beta gamma alpha"
      = ["alpha", "beta", "gamma", "alpha"] := by
  rw [show ("alpha beta gamma alpha" : String)
      = joinSpace ["alpha", "beta", "gamma", "alpha"] from rfl]
  exact tokenize_joinSpace _ (by decide)

lemma chunk_ab_eval : _chunk_text "alpha beta" 2 0 = ["alpha beta"] := by
  rw [_chunk_text]
  simp only [tok_ab]
  rw [if_neg (by decide)]
  rw [chunkLoop]
  norm_num [joinSpace, sepChars]

lemma score_scenario_1 :
    (scoreEntry (_tokenize "alpha").toFinset entryAlphaBeta).score = 1/2 := by
  rw [tok_alpha]
  simp [scoreEntry, entryAlphaBeta, roundTo]
  norm_num [round_eq]

lemma score_scenario_2 :
    (scoreEntry (_tokenize "alpha").toFinset entryGamma).score = 0 := by
  rw [tok_alpha]
  simp [scoreEntry, entryGamma, roundTo]

lemma retrieve_scenario_k1 :
    (retrieve_relevant_chunks scenarioIndex "alpha" 1 "ts").retrieved
      = [⟨"c1", "d1", "t1", "alpha beta", 1/2⟩] := by
  rw [retrieve_relevant_chunks]
  simp only [tok_alpha]
  simp [stableSortDesc, stableSortDescTagged, List.mergeSort, scenarioIndex,
    scoreEntry, entryAlphaBeta, entryGamma, scoredLE, roundTo, List.enum,
    List.enumFrom, List.merge]
  norm_num [round_eq]

lemma retrieve_scenario_k2 :
    (retrieve_relevant_chunks scenarioIndex "alpha" 2 "ts").retrieved
      = [⟨"c1", "d1", "t1", "alpha beta", 1/2⟩,
         ⟨"c2", "d2", "t2", "gamma", 0⟩] := by
  rw [retrieve_relevant_chunks]
  simp only [tok_alpha]
  simp [stableSortDesc, stableSortDescTagged, List.mergeSort, scenarioIndex,
    scoreEntry, entryAlphaBeta, entryGamma, scoredLE, roundTo, List.enum,
    List.enumFrom, List.merge]
  norm_num [round_eq]

/-! ### Non-emptiness of produced chunks -/

lemma joinSpace_ne_empty {w : List String} (hw : w ≠ [])
    (hall : ∀ t ∈ w, t.data ≠ []) : joinSpace w ≠ "" := by
  cases w with
  | nil => exact absurd rfl hw
  | cons t ts =>
    cases ts with
    | nil =>
      intro h
      apply hall t (List.mem_cons_self _ _)
      have hdata : (joinSpace [t]).data = t.data := rfl
      rw [h] at hdata
      exact hdata.symm
    | cons t' ts' =>
      intro h
      have hdata : (joinSpace (t :: t' :: ts')).data
          = t.data ++ ' ' :: sepChars ((t' :: ts').map String.data) := rfl
      rw [h] at hdata
      exact absurd hdata.symm (by simp)

lemma chunkLoop_mem (tokens : List String) (chunk_size step : Nat)
    (hstep : 0 < step) (hc : 0 < chunk_size) (start : Nat) :
    ∀ ch ∈ chunkLoop tokens chunk_size step hstep start,
      ∃ w, w ≠ [] ∧ (∀ t ∈ w, t ∈ tokens) ∧ ch = joinSpace w := by
  intro ch hch
  rw [chunkLoop] at hch
  by_cases h : start < tokens.length
  · simp only [dif_pos h] at hch
    rw [if_neg (by simp [List.isEmpty_iff, window_ne_nil hc h])] at hch
    rcases List.mem_cons.mp hch with h1 | h1
    · exact ⟨(tokens.drop start).take chunk_size, window_ne_nil hc h,
        fun t ht => (tokens.drop_subset start) ((List.take_subset _ _) ht), h1⟩
    · by_cases h2 : tokens.length ≤ start + chunk_size
      · rw [if_pos h2] at h1
        simp at h1
      · rw [if_neg h2] at h1
        exact chunkLoop_mem tokens chunk_size step hstep hc (start + step) ch h1
  · simp only [dif_neg h] at hch
    simp at hch
termination_by tokens.length - start
decreasing_by omega

/-! ### Claim theorems -/

/-- Claim C9: `_tokenize` is a total function; every output token is a
non-empty string of lowercase word characters `[a-z0-9_]` (punctuation and
whitespace act only as separators), and the empty string tokenizes to the
empty sequence. -/
theorem tokenize_total_lowercase_charset :
    _tokenize "" = [] ∧
    ∀ (s : String), ∀ t ∈ _tokenize s,
      t ≠ "" ∧ ∀ ch ∈ t.data, isLowerWordChar ch = true := by
  refine ⟨?_, ?_⟩
  · show (tokenRuns ((("" : String).data).map Char.toLower)).map _ = []
    rw [show ((("" : String).data).map Char.toLower) = [] from rfl, tokenRuns]
    rfl
  · intro s t ht
    obtain ⟨hne, hall⟩ := tokenize_mem_spec ht
    refine ⟨?_, hall⟩
    intro h
    subst h
    exact hne rfl

/-- Witness for C9 at the concrete input `"alpha beta"`. -/
theorem tokenize_total_lowercase_charset_witness :
    ("alpha" : String) ≠ "" ∧
      ∀ ch ∈ ("alpha" : String).data, isLowerWordChar ch = true :=
  tokenize_total_lowercase_charset.2 "alpha beta" "alpha"
    (by rw [tok_ab]; decide)

/-- Claim C10: under `chunk_size ≥ 1`, every window taken in the chunking loop
is non-empty, so the empty-window skip branch is unreachable (the loop equals
its skip-free variant) and every produced chunk string is non-empty. -/
theorem chunk_skip_branch_unreachable :
    ∀ (text : String) (chunk_size overlap : Nat), 1 ≤ chunk_size →
      _chunk_text text chunk_size overlap
          = chunkTextNoSkip text chunk_size overlap ∧
        ∀ ch ∈ _chunk_text text chunk_size overlap, ch ≠ "" := by
  intro text chunk_size overlap hc
  constructor
  · rw [_chunk_text, chunkTextNoSkip]
    by_cases h : (_tokenize text).isEmpty
    · rw [if_pos h, if_pos h]
    · rw [if_neg h, if_neg h]
      exact chunkLoop_eq_noSkip _ _ _ (by omega) (by omega) 0
  · intro ch hch
    rw [_chunk_text] at hch
    by_cases h : (_tokenize text).isEmpty
    · rw [if_pos h] at hch
      simp at hch
    · rw [if_neg h] at hch
      obtain ⟨w, hw, hmem, rfl⟩ :=
        chunkLoop_mem _ _ _ (by omega) (by omega) 0 ch hch
      exact joinSpace_ne_empty hw (fun t ht => (tokenize_mem_spec (hmem t ht)).1)

/-- Witness for C10 at the concrete input `"alpha beta"` with
`chunk_size = 2`, `overlap = 0`. -/
theorem chunk_skip_branch_unreachable_witness :
    _chunk_text "alpha beta" 2 0 = chunkTextNoSkip "alpha beta" 2 0 ∧
      ("alpha beta" : String) ≠ "" := by
  obtain ⟨h1, h2⟩ := chunk_skip_branch_unreachable "alpha beta" 2 0 (by norm_num)
  exact ⟨h1, h2 "alpha beta" (by rw [chunk_ab_eval]; decide)⟩

/-- Claim C4: `_chunk_text` tokenizes the text and slides a window of
`chunk_size` tokens with fixed step `max(1, chunk_size - overlap)`, joining
each window with single spaces, stopping after the first window whose end
index reaches the token count; on `"alpha beta gamma alpha"` with
`chunk_size = 2`, `overlap = 0` it yields `["alpha beta", "gamma alpha"]`. -/
theorem chunk_text_sliding_window :
    (∀ (text : String) (chunk_size overlap : Nat), 1 ≤ chunk_size →
      _tokenize text ≠ [] →
      ∃ m,
        (∀ i < m,
          i * max 1 (chunk_size - overlap) + chunk_size
            < (_tokenize text).length) ∧
        (_tokenize text).length
            ≤ m * max 1 (chunk_size - overlap) + chunk_size ∧
        _chunk_text text chunk_size overlap
          = (List.range (m + 1)).map (fun i =>
              joinSpace (((_tokenize text).drop
                (i * max 1 (chunk_size - overlap))).take chunk_size))) ∧
    _chunk_text "alpha beta gamma alpha" 2 0 = ["alpha beta", "gamma alpha"] := by
  constructor
  · intro text chunk_size overlap hc hne
    have h0 : 0 < (_tokenize text).length := List.length_pos.mpr hne
    have hstep : 0 < max 1 (chunk_size - overlap) := by omega
    have hsc : max 1 (chunk_size - overlap) ≤ chunk_size := by omega
    refine ⟨numSteps (_tokenize text).length chunk_size
      (max 1 (chunk_size - overlap)) hstep 0, ?_, ?_, ?_⟩
    · intro i hi
      have := (numSteps_spec (_tokenize text).length chunk_size
        (max 1 (chunk_size - overlap)) hstep 0).1 i hi
      omega
    · have := (numSteps_spec (_tokenize text).length chunk_size
        (max 1 (chunk_size - overlap)) hstep 0).2
      omega
    · rw [_chunk_text, if_neg (by simp [List.isEmpty_iff, hne])]
      rw [chunkLoop_windows _ _ _ hstep (by omega) hsc 0 h0]
      apply List.map_congr_left
      intro i _
      rw [Nat.zero_add]
  · rw [_chunk_text]
    simp only [tok_abga]
    rw [if_neg (by decide)]
    rw [chunkLoop]
    norm_num
    rw [chunkLoop]
    norm_num [joinSpace, sepChars]

/-- Witness for C4 at `"alpha beta gamma alpha"`, `chunk_size = 2`,
`overlap = 0`. -/
theorem chunk_text_sliding_window_witness :
    ∃ m,
      (∀ i < m,
        i * max 1 (2 - 0) + 2 < (_tokenize "alpha beta gamma alpha").length) ∧
      (_tokenize "alpha beta gamma alpha").length ≤ m * max 1 (2 - 0) + 2 ∧
      _chunk_text "alpha beta gamma alpha" 2 0
        = (List.range (m + 1)).map (fun i =>
            joinSpace (((_tokenize "alpha beta gamma alpha").drop
              (i * max 1 (2 - 0))).take 2)) :=
  chunk_text_sliding_window.1 "alpha beta gamma alpha" 2 0 (by norm_num)
    (by rw [tok_abga]; simp)

/-- Index arithmetic: every position `p` below the token count falls inside
the window starting at `i * step` for some `i` at most `numSteps`. -/
lemma cover_index (n chunk_size step : Nat) (hstep : 0 < step)
    (hsc : step ≤ chunk_size) (p : Nat) (hp : p < n) :
    ∃ i, i ≤ numSteps n chunk_size step hstep 0 ∧
      i * step ≤ p ∧ p < i * step + chunk_size := by
  obtain ⟨hlt, hge⟩ := numSteps_spec n chunk_size step hstep 0
  by_cases hdiv : p / step ≤ numSteps n chunk_size step hstep 0
  · refine ⟨p / step, hdiv, Nat.div_mul_le_self p step, ?_⟩
    have hmod : p % step < step := Nat.mod_lt p hstep
    have hsum : p / step * step + p % step = p := Nat.div_add_mod' p step
    omega
  · push_neg at hdiv
    refine ⟨numSteps n chunk_size step hstep 0, le_refl _, ?_, by omega⟩
    have h1 : (numSteps n chunk_size step hstep 0 + 1) * step ≤ p / step * step :=
      Nat.mul_le_mul_right step hdiv
    have h2 : p / step * step ≤ p := Nat.div_mul_le_self p step
    rw [Nat.succ_mul] at h1
    omega

/-- Claim C5: for non-empty token sequences and `chunk_size ≥ 1`,
`_chunk_text` produces a non-empty chunk list and every original token —
both positionally and by value — occurs among the tokens of some chunk. -/
theorem chunk_text_nonempty_covers :
    ∀ (text : String) (chunk_size overlap : Nat), 1 ≤ chunk_size →
      _tokenize text ≠ [] →
      _chunk_text text chunk_size overlap ≠ [] ∧
      (∀ p (hp : p < (_tokenize text).length),
        ∃ ch ∈ _chunk_text text chunk_size overlap,
          (_tokenize text).get ⟨p, hp⟩ ∈ _tokenize ch) ∧
      ∀ t ∈ _tokenize text,
        ∃ ch ∈ _chunk_text text chunk_size overlap, t ∈ _tokenize ch := by
  intro text chunk_size overlap hc hne
  have h0 : 0 < (_tokenize text).length := List.length_pos.mpr hne
  have hstep : 0 < max 1 (chunk_size - overlap) := by omega
  have hsc : max 1 (chunk_size - overlap) ≤ chunk_size := by omega
  have hchunk : _chunk_text text chunk_size overlap
      = (List.range (numSteps (_tokenize text).length chunk_size
            (max 1 (chunk_size - overlap)) hstep 0 + 1)).map
          (fun i => joinSpace (((_tokenize text).drop
            (0 + i * max 1 (chunk_size - overlap))).take chunk_size)) := by
    rw [_chunk_text, if_neg (by simp [List.isEmpty_iff, hne])]
    exact chunkLoop_windows _ _ _ hstep (by omega) hsc 0 h0
  have hcov : ∀ p (hp : p < (_tokenize text).length),
      ∃ ch ∈ _chunk_text text chunk_size overlap,
        (_tokenize text).get ⟨p, hp⟩ ∈ _tokenize ch := by
    intro p hp
    obtain ⟨i, him, h1, h2⟩ := cover_index (_tokenize text).length chunk_size
      (max 1 (chunk_size - overlap)) hstep hsc p hp
    have hwin : ∀ t ∈ ((_tokenize text).drop
        (0 + i * max 1 (chunk_size - overlap))).take chunk_size,
        t ∈ _tokenize text :=
      fun t ht => ((_tokenize text).drop_subset _) ((List.take_subset _ _) ht)
    refine ⟨joinSpace (((_tokenize text).drop
      (0 + i * max 1 (chunk_size - overlap))).take chunk_size), ?_, ?_⟩
    · rw [hchunk]
      exact List.mem_map_of_mem _ (List.mem_range.mpr (by omega))
    · rw [tokenize_joinSpace _ (fun t ht => tokenize_mem_spec (hwin t ht))]
      have hlen : p - i * max 1 (chunk_size - overlap)
          < (((_tokenize text).drop
              (0 + i * max 1 (chunk_size - overlap))).take chunk_size).length := by
        simp only [List.length_take, List.length_drop]
        omega
      have hgetEq : (((_tokenize text).drop
          (0 + i * max 1 (chunk_size - overlap))).take chunk_size).get
            ⟨p - i * max 1 (chunk_size - overlap), hlen⟩
          = (_tokenize text).get ⟨p, hp⟩ := by
        simp only [List.get_eq_getElem, List.getElem_take, List.getElem_drop]
        congr 1
        omega
      rw [← hgetEq]
      exact List.get_mem _ _ hlen
  refine ⟨?_, hcov, ?_⟩
  · rw [hchunk]
    simp
  · intro t ht
    obtain ⟨⟨p, hp⟩, hpt⟩ := List.mem_iff_get.mp ht
    obtain ⟨ch, hch, hmem⟩ := hcov p hp
    exact ⟨ch, hch, hpt ▸ hmem⟩

/-- Witness for C5 at `"alpha beta gamma alpha"`, `chunk_size = 2`,
`overlap = 0`, token `"gamma"`. -/
theorem chunk_text_nonempty_covers_witness :
    _chunk_text "alpha beta gamma alpha" 2 0 ≠ [] ∧
      ∃ ch ∈ _chunk_text "alpha beta gamma alpha" 2 0,
        ("gamma" : String) ∈ _tokenize ch := by
  obtain ⟨h1, _, h3⟩ := chunk_text_nonempty_covers "alpha beta gamma alpha" 2 0
    (by norm_num) (by rw [tok_abga]; simp)
  exact ⟨h1, h3 "gamma" (by rw [tok_abga]; decide)⟩

/-- Claim C1: retrieval scores each entry by Jaccard overlap with the union
denominator floored at 1, sorts the scored entries descending with a stable
sort (ties keep original entry order, captured by the position tags), and
returns the first `top_k`; `top_k` beyond the entry count returns all
entries.  Scenario: query `"alpha"` against token sets `{alpha, beta}` and
`{gamma}` scores `1/2` and `0`, and `top_k = 1` returns only the first. -/
theorem retrieve_topk_stable_jaccard :
    (∀ (index_payload : IndexPayload) (query : String) (top_k : Nat)
        (now : String),
      (∀ e ∈ index_payload.entries,
        (scoreEntry (_tokenize query).toFinset e).score
          = roundTo
              ((((_tokenize query).toFinset ∩ e.tokens.toFinset).card : ℚ)
                / (((if ((_tokenize query).toFinset
                        ∪ e.tokens.toFinset).card = 0
                    then 1
                    else ((_tokenize query).toFinset
                        ∪ e.tokens.toFinset).card) : Nat) : ℚ)) 4) ∧
      (retrieve_relevant_chunks index_payload query top_k now).retrieved
        = ((stableSortDescTagged (index_payload.entries.map
            (scoreEntry (_tokenize query).toFinset))).map
              (fun pr => pr.2)).take top_k ∧
      (stableSortDescTagged (index_payload.entries.map
          (scoreEntry (_tokenize query).toFinset))).Perm
        ((index_payload.entries.map
          (scoreEntry (_tokenize query).toFinset)).enum) ∧
      (∀ pr ∈ stableSortDescTagged (index_payload.entries.map
          (scoreEntry (_tokenize query).toFinset)),
        ∃ h : pr.1 < (index_payload.entries.map
            (scoreEntry (_tokenize query).toFinset)).length,
          (index_payload.entries.map
            (scoreEntry (_tokenize query).toFinset))[pr.1] = pr.2) ∧
      List.Pairwise (fun a b : Nat × ScoredChunk =>
          b.2.score < a.2.score ∨ (a.2.score = b.2.score ∧ a.1 < b.1))
        (stableSortDescTagged (index_payload.entries.map
          (scoreEntry (_tokenize query).toFinset))) ∧
      (index_payload.entries.length ≤ top_k →
        (retrieve_relevant_chunks index_payload query top_k now).retrieved
          = (stableSortDescTagged (index_payload.entries.map
              (scoreEntry (_tokenize query).toFinset))).map
                (fun pr => pr.2))) ∧
    (scoreEntry (_tokenize "alpha").toFinset entryAlphaBeta).score = 1/2 ∧
    (scoreEntry (_tokenize "alpha").toFinset entryGamma).score = 0 ∧
    (retrieve_relevant_chunks scenarioIndex "alpha" 1 "ts").retrieved
      = [⟨"c1", "d1", "t1", "alpha beta", 1/2⟩] := by
  refine ⟨?_, score_scenario_1, score_scenario_2, retrieve_scenario_k1⟩
  intro index_payload query top_k now
  refine ⟨fun e _ => rfl, rfl, stableSortDescTagged_perm _,
    fun pr hpr => stableSortDescTagged_getElem _ hpr,
    stableSortDescTagged_pairwise _, ?_⟩
  intro hlen
  have hle : ((stableSortDescTagged (index_payload.entries.map
      (scoreEntry (_tokenize query).toFinset))).map
        (fun pr => pr.2)).length ≤ top_k := by
    rw [List.length_map, (stableSortDescTagged_perm _).length_eq,
      List.enum_length, List.length_map]
    exact hlen
  exact List.take_of_length_le hle

/-- Witness for C1 at the scenario index, discharging the membership and
`top_k ≥ entry count` hypotheses. -/
theorem retrieve_topk_stable_jaccard_witness :
    (scoreEntry (_tokenize "alpha").toFinset entryAlphaBeta).score
      = roundTo
          ((((_tokenize "alpha").toFinset
              ∩ entryAlphaBeta.tokens.toFinset).card : ℚ)
            / (((if ((_tokenize "alpha").toFinset
                    ∪ entryAlphaBeta.tokens.toFinset).card = 0
                then 1
                else ((_tokenize "alpha").toFinset
                    ∪ entryAlphaBeta.tokens.toFinset).card) : Nat) : ℚ)) 4 ∧
    (retrieve_relevant_chunks scenarioIndex "alpha" 2 "ts").retrieved
      = (stableSortDescTagged (scenarioIndex.entries.map
          (scoreEntry (_tokenize "alpha").toFinset))).map (fun pr => pr.2) :=
  ⟨(retrieve_topk_stable_jaccard.1 scenarioIndex "alpha" 2 "ts").1
      entryAlphaBeta (by decide),
   (retrieve_topk_stable_jaccard.1 scenarioIndex "alpha" 2 "ts").2.2.2.2.2
      (by decide)⟩

/-- Claim C6: retrieval ranking is monotonic in the overlap score: for
entries A (at position `i`) and B (at position `j`) of the returned ranking,
if A's score is strictly greater than B's, then A appears before B. -/
theorem retrieval_monotonic_in_score :
    ∀ (index_payload : IndexPayload) (query : String) (top_k : Nat)
      (now : String) (i j : Nat) (a b : ScoredChunk),
      (retrieve_relevant_chunks index_payload query top_k now).retrieved[i]?
          = some a →
      (retrieve_relevant_chunks index_payload query top_k now).retrieved[j]?
          = some b →
      b.score < a.score → i < j := by
  intro p query k now i j a b ha hb hab
  have hpw : List.Pairwise (fun x y : ScoredChunk => y.score ≤ x.score)
      ((retrieve_relevant_chunks p query k now).retrieved) :=
    List.Pairwise.sublist (List.take_sublist _ _)
      (stableSortDesc_pairwise (p.entries.map
        (scoreEntry (_tokenize query).toFinset)))
  obtain ⟨hi, hia⟩ := List.getElem?_eq_some_iff.mp ha
  obtain ⟨hj, hjb⟩ := List.getElem?_eq_some_iff.mp hb
  by_contra hij
  push_neg at hij
  rcases Nat.lt_or_ge j i with hlt | hge
  · have := List.pairwise_iff_getElem.mp hpw j i hj hi hlt
    rw [hia, hjb] at this
    exact absurd hab (not_lt.mpr this)
  · have : i = j := by omega
    subst this
    rw [hia] at hjb
    subst hjb
    exact absurd hab (lt_irrefl _)

/-- Witness for C6 at the scenario index with `top_k = 2`: the entry scored
`1/2` at position 0 precedes the entry scored `0` at position 1. -/
theorem retrieval_monotonic_in_score_witness : (0 : Nat) < 1 :=
  retrieval_monotonic_in_score scenarioIndex "alpha" 2 "ts" 0 1
    ⟨"c1", "d1", "t1", "alpha beta", 1/2⟩ ⟨"c2", "d2", "t2", "gamma", 0⟩
    (by rw [retrieve_scenario_k2]; rfl)
    (by rw [retrieve_scenario_k2]; rfl)
    (by norm_num)

/-- Claim C7: the grounded answer's citation list equals the ordered
`chunk_id`s of the retrieved chunks, every cited `chunk_id` occurs among the
index entries active for the query, and the baseline answer always has an
empty citation list. -/
theorem grounded_citations_from_index :
    ∀ (index_payload : IndexPayload) (query : String) (top_k : Nat)
      (t t' : String),
      (generate_grounded_answer
          (retrieve_relevant_chunks index_payload query top_k t) t').citations
        = (retrieve_relevant_chunks index_payload query top_k t).retrieved.map
            (fun item => item.chunk_id) ∧
      (∀ cid ∈ (generate_grounded_answer
          (retrieve_relevant_chunks index_payload query top_k t) t').citations,
        cid ∈ index_payload.entries.map (fun e => e.chunk_id)) ∧
      ∀ (q now : String), (generate_baseline_answer q now).citations = [] := by
  intro p query k t t'
  refine ⟨rfl, ?_, fun q now => rfl⟩
  intro cid hcid
  obtain ⟨s, hs, rfl⟩ := List.mem_map.mp hcid
  have hs2 : s ∈ stableSortDesc (p.entries.map
      (scoreEntry (_tokenize query).toFinset)) :=
    List.take_subset _ _ hs
  have hs3 : s ∈ p.entries.map (scoreEntry (_tokenize query).toFinset) :=
    (stableSortDesc_perm _).subset hs2
  obtain ⟨e, he, rfl⟩ := List.mem_map.mp hs3
  exact List.mem_map_of_mem _ he

/-- Witness for C7: the citation `"c1"` produced for the scenario query is a
`chunk_id` of the scenario index. -/
theorem grounded_citations_from_index_witness :
    ("c1" : String) ∈ scenarioIndex.entries.map (fun e => e.chunk_id) :=
  (grounded_citations_from_index scenarioIndex "alpha" 1 "ts" "ts").2.1 "c1"
    (by
      show ("c1" : String) ∈ (retrieve_relevant_chunks scenarioIndex "alpha"
        1 "ts").retrieved.map (fun item => item.chunk_id)
      rw [retrieve_scenario_k1]
      decide)

/-- Claim C2: the baseline evaluator's grounding score is always exactly 0;
the grounded evaluator returns `len(citations) / max(1, retrieved_count)`
rounded to 2 decimals; for answers produced by the grounded generator the
score lies in `[0, 1]`, and citing all 3 of 3 retrieved chunks gives 1. -/
theorem grounding_score_invariants :
    (∀ (a : Answer) (now : String),
      (evaluate_baseline_answer a now).grounding_score = 0) ∧
    (∀ (a : Answer) (r : RetrievalPayload) (now : String),
      (evaluate_grounded_answer a r now).grounding_score
        = roundTo ((a.citations.length : ℚ)
            / ((max 1 r.retrieved.length : Nat) : ℚ)) 2) ∧
    (∀ (r : RetrievalPayload) (t now : String),
      0 ≤ (evaluate_grounded_answer (generate_grounded_answer r t) r
            now).grounding_score ∧
      (evaluate_grounded_answer (generate_grounded_answer r t) r
            now).grounding_score ≤ 1) ∧
    (∀ (r : RetrievalPayload) (t now : String), r.retrieved.length = 3 →
      (evaluate_grounded_answer (generate_grounded_answer r t) r
            now).grounding_score = 1) := by
  have hform : ∀ (a : Answer) (r : RetrievalPayload) (now : String),
      (evaluate_grounded_answer a r now).grounding_score
        = roundTo ((a.citations.length : ℚ)
            / ((max 1 r.retrieved.length : Nat) : ℚ)) 2 := fun a r now => rfl
  have hcit : ∀ (r : RetrievalPayload) (t : String),
      ((generate_grounded_answer r t).citations).length
        = r.retrieved.length := fun r t => List.length_map _ _
  have hval : ∀ (r : RetrievalPayload) (t now : String),
      (evaluate_grounded_answer (generate_grounded_answer r t) r
          now).grounding_score
        = roundTo ((r.retrieved.length : ℚ)
            / ((max 1 r.retrieved.length : Nat) : ℚ)) 2 := by
    intro r t now
    rw [hform, hcit]
  refine ⟨fun a now => rfl, hform, ?_, ?_⟩
  · intro r t now
    rw [hval]
    rcases Nat.eq_zero_or_pos r.retrieved.length with h | h
    · rw [h]
      norm_num [roundTo]
    · rw [show (max 1 r.retrieved.length) = r.retrieved.length from by omega]
      rw [div_self (by positivity : (r.retrieved.length : ℚ) ≠ 0)]
      norm_num [roundTo, round_eq]
  · intro r t now h3
    rw [hval, h3]
    norm_num [roundTo, round_eq]

/-- Witness for C2: a grounded answer citing all 3 of 3 retrieved chunks has
grounding score exactly 1. -/
theorem grounding_score_invariants_witness :
    (evaluate_grounded_answer (generate_grounded_answer retrievalWithThree
        "ts") retrievalWithThree "ts").grounding_score = 1 :=
  grounding_score_invariants.2.2.2 retrievalWithThree "ts" "ts" rfl

/-! ### Degenerate inputs and determinism -/

lemma tok_empty : _tokenize "" = [] := by
  show (tokenRuns ((("" : String).data).map Char.toLower)).map _ = []
  rw [show ((("" : String).data).map Char.toLower) = [] from rfl, tokenRuns]
  rfl

lemma chunk_empty : _chunk_text "" 50 10 = [] := by
  rw [_chunk_text, if_pos (by rw [tok_empty]; rfl)]

/-- Claim C8: a document with empty content yields zero chunks, zero index
entries, vocabulary size 0, and retrieval over the empty index returns
`retrieved = []` with `best_score = 0` (all defined, non-error behaviour). -/
theorem empty_content_degenerate :
    ∀ (idv title source query now : String) (top_k : Nat),
      (chunk_documents [⟨idv, title, source, ""⟩] now).chunks = [] ∧
      (chunk_documents [⟨idv, title, source, ""⟩] now).metrics.chunk_count
          = 0 ∧
      (build_mock_index (chunk_documents [⟨idv, title, source, ""⟩] now)
          now).entries = [] ∧
      (build_mock_index (chunk_documents [⟨idv, title, source, ""⟩] now)
          now).metrics.vocabulary_size = 0 ∧
      (retrieve_relevant_chunks (build_mock_index
          (chunk_documents [⟨idv, title, source, ""⟩] now) now) query top_k
          now).retrieved = [] ∧
      (retrieve_relevant_chunks (build_mock_index
          (chunk_documents [⟨idv, title, source, ""⟩] now) now) query top_k
          now).metrics.best_score = 0 := by
  intro idv title source query now top_k
  have h1 : (chunk_documents [⟨idv, title, source, ""⟩] now).chunks = [] := by
    simp [chunk_documents, chunk_empty]
  have h2 : (chunk_documents [⟨idv, title, source, ""⟩]
      now).metrics.chunk_count = 0 := by
    simp [chunk_documents, chunk_empty]
  have h3 : (build_mock_index (chunk_documents [⟨idv, title, source, ""⟩] now)
      now).entries = [] := by
    simp [build_mock_index, h1]
  have h4 : (build_mock_index (chunk_documents [⟨idv, title, source, ""⟩] now)
      now).metrics.vocabulary_size = 0 := by
    simp [build_mock_index, h1]
  have h5 : (retrieve_relevant_chunks (build_mock_index
      (chunk_documents [⟨idv, title, source, ""⟩] now) now) query top_k
      now).retrieved = [] := by
    simp [retrieve_relevant_chunks, stableSortDesc, stableSortDescTagged, h3]
  have h6 : (retrieve_relevant_chunks (build_mock_index
      (chunk_documents [⟨idv, title, source, ""⟩] now) now) query top_k
      now).metrics.best_score = 0 := by
    simp [retrieve_relevant_chunks, stableSortDesc, stableSortDescTagged, h3]
  exact ⟨h1, h2, h3, h4, h5, h6⟩

lemma map_fst_zip {α β : Type} (g : Nat → β) :
    ∀ (l1 : List Nat) (l2 : List α), l1.length ≤ l2.length →
      (l1.zip l2).map (fun p => g p.1) = l1.map g := by
  intro l1
  induction l1 with
  | nil => intro l2 _; rfl
  | cons a l1 ih =>
    intro l2 hlen
    cases l2 with
    | nil => simp at hlen
    | cons b l2 =>
      simp only [List.zip_cons_cons, List.map_cons, List.cons.injEq, true_and]
      exact ih l2 (by simpa using hlen)

lemma map_fst_enum {α β : Type} (l : List α) (g : Nat → β) :
    (l.enum).map (fun p => g p.1) = (List.range l.length).map g := by
  rw [List.enum_eq_zip_range]
  exact map_fst_zip g _ l (by rw [List.length_range])

/-- The `chunk_id`s produced by `chunk_documents` are exactly the document
ids suffixed with the zero-padded positional index of each chunk. -/
lemma chunk_documents_chunk_ids (documents : List Document) (now : String) :
    (chunk_documents documents now).chunks.map (fun c => c.chunk_id)
      = documents.flatMap (fun d =>
          (List.range (_chunk_text d.content 50 10).length).map
            (fun i => d.id ++ "_chunk_" ++ format03 i)) := by
  show (documents.flatMap _).map _ = _
  rw [List.map_flatMap]
  refine congrArg (fun f => documents.flatMap f) (funext fun d => ?_)
  rw [List.map_map]
  exact map_fst_enum (_chunk_text d.content 50 10)
    (fun i => d.id ++ "_chunk_" ++ format03 i)

/-- Claim C3: two runs of the pipeline on identical documents and parameters
produce identical chunks (hence bit-identical `chunk_id`s, which are derived
only from the document id and a zero-padded positional index), identical
index entries and vocabulary size, identical retrieval ranking, and identical
metric values apart from the recorded timestamp field. -/
theorem pipeline_deterministic :
    ∀ (documents : List Document) (query : String) (top_k : Nat)
      (t1 t2 : String),
      (chunk_documents documents t1).chunks
          = (chunk_documents documents t2).chunks ∧
      ((chunk_documents documents t1).chunks.map (fun c => c.chunk_id)
        = documents.flatMap (fun d =>
            (List.range (_chunk_text d.content 50 10).length).map
              (fun i => d.id ++ "_chunk_" ++ format03 i))) ∧
      (build_mock_index (chunk_documents documents t1) t1).entries
          = (build_mock_index (chunk_documents documents t2) t2).entries ∧
      (build_mock_index (chunk_documents documents t1)
            t1).metrics.vocabulary_size
          = (build_mock_index (chunk_documents documents t2)
            t2).metrics.vocabulary_size ∧
      (retrieve_relevant_chunks (build_mock_index
            (chunk_documents documents t1) t1) query top_k t1).retrieved
          = (retrieve_relevant_chunks (build_mock_index
            (chunk_documents documents t2) t2) query top_k t2).retrieved ∧
      (chunk_documents documents t1).metrics.document_count
          = (chunk_documents documents t2).metrics.document_count ∧
      (chunk_documents documents t1).metrics.chunk_count
          = (chunk_documents documents t2).metrics.chunk_count ∧
      (chunk_documents documents t1).metrics.avg_chunk_tokens
          = (chunk_documents documents t2).metrics.avg_chunk_tokens ∧
      (build_mock_index (chunk_documents documents t1)
            t1).metrics.indexed_chunks
          = (build_mock_index (chunk_documents documents t2)
            t2).metrics.indexed_chunks ∧
      (build_mock_index (chunk_documents documents t1) t1).metrics.index_type
          = (build_mock_index (chunk_documents documents t2)
            t2).metrics.index_type ∧
      (retrieve_relevant_chunks (build_mock_index
            (chunk_documents documents t1) t1) query top_k
            t1).metrics.retrieved_count
          = (retrieve_relevant_chunks (build_mock_index
            (chunk_documents documents t2) t2) query top_k
            t2).metrics.retrieved_count ∧
      (retrieve_relevant_chunks (build_mock_index
            (chunk_documents documents t1) t1) query top_k
            t1).metrics.best_score
          = (retrieve_relevant_chunks (build_mock_index
            (chunk_documents documents t2) t2) query top_k
            t2).metrics.best_score ∧
      (evaluate_grounded_answer (generate_grounded_answer
            (retrieve_relevant_chunks (build_mock_index
              (chunk_documents documents t1) t1) query top_k t1) t1)
            (retrieve_relevant_chunks (build_mock_index
              (chunk_documents documents t1) t1) query top_k t1)
            t1).grounding_score
          = (evaluate_grounded_answer (generate_grounded_answer
            (retrieve_relevant_chunks (build_mock_index
              (chunk_documents documents t2) t2) query top_k t2) t2)
            (retrieve_relevant_chunks (build_mock_index
              (chunk_documents documents t2) t2) query top_k t2)
            t2).grounding_score ∧
      (evaluate_grounded_answer (generate_grounded_answer
            (retrieve_relevant_chunks (build_mock_index
              (chunk_documents documents t1) t1) query top_k t1) t1)
            (retrieve_relevant_chunks (build_mock_index
              (chunk_documents documents t1) t1) query top_k t1)
            t1).citation_count
          = (evaluate_grounded_answer (generate_grounded_answer
            (retrieve_relevant_chunks (build_mock_index
              (chunk_documents documents t2) t2) query top_k t2) t2)
            (retrieve_relevant_chunks (build_mock_index
              (chunk_documents documents t2) t2) query top_k t2)
            t2).citation_count := by
  intro documents query top_k t1 t2
  exact ⟨rfl, chunk_documents_chunk_ids documents t1, rfl, rfl, rfl, rfl,
    rfl, rfl, rfl, rfl, rfl, rfl, rfl, rfl⟩
